import Mathlib

/-!
Shallow embedding of the offline-cache core of the `aps-disconnected`
repository: the server-side manifest resolver and derivative file
enumerator (`routes/models.js`, provided as `src/unnamed/part_000`) and
the service-worker cache controller (`src/public/service-worker.js`).

External effects (network fetches, archive/zip/gzip decoding, the cache
storage backend) are modelled as explicit environments passed to the
embedded functions; JavaScript exceptions and promise rejections are
modelled with `Option`/`Except`.
-/

namespace ApsDisconnected

/-! ### JavaScript `decodeURIComponent`

`decodeURIComponent` scans the string for `%XX` escape sequences,
collects the escaped bytes, and UTF-8-decodes them (throwing `URIError`
on a malformed escape or an invalid UTF-8 byte sequence).  Characters
outside escape sequences pass through unchanged.  The failure case is
modelled as `none`. -/

def hexDigitVal (c : Char) : Option Nat :=
  if '0' ≤ c ∧ c ≤ '9' then some (c.toNat - '0'.toNat)
  else if 'a' ≤ c ∧ c ≤ 'f' then some (c.toNat - 'a'.toNat + 10)
  else if 'A' ≤ c ∧ c ≤ 'F' then some (c.toNat - 'A'.toNat + 10)
  else none

/-- One lexical token of a percent-encoded string: either a literal
character or the byte value of a `%XX` escape sequence. -/
inductive PctTok where
  | lit (c : Char)
  | byte (b : Nat)
deriving Repr, DecidableEq

/-- Tokenise a character list, turning each `%XX` into its byte value;
`none` when a `%` is not followed by two hex digits. -/
def pctToks : List Char → Option (List PctTok)
  | [] => some []
  | '%' :: h :: l :: rest =>
    match hexDigitVal h, hexDigitVal l, pctToks rest with
    | some hi, some lo, some ts => some (PctTok.byte (16 * hi + lo) :: ts)
    | _, _, _ => none
  | '%' :: _ => none
  | c :: rest =>
    match pctToks rest with
    | some ts => some (PctTok.lit c :: ts)
    | none => none

def isContByte (b : Nat) : Bool := 0x80 ≤ b ∧ b ≤ 0xBF

/-- Allowed range of the first continuation byte after a 3-byte lead
(strict UTF-8: excludes overlong forms after `0xE0` and surrogate code
points after `0xED`). -/
def cont3Ok (lead b2 : Nat) : Bool :=
  if lead = 0xE0 then 0xA0 ≤ b2 ∧ b2 ≤ 0xBF
  else if lead = 0xED then 0x80 ≤ b2 ∧ b2 ≤ 0x9F
  else isContByte b2

/-- Allowed range of the first continuation byte after a 4-byte lead
(strict UTF-8: excludes overlong forms after `0xF0` and code points
above `0x10FFFF` after `0xF4`). -/
def cont4Ok (lead b2 : Nat) : Bool :=
  if lead = 0xF0 then 0x90 ≤ b2 ∧ b2 ≤ 0xBF
  else if lead = 0xF4 then 0x80 ≤ b2 ∧ b2 ≤ 0x8F
  else isContByte b2

/-- UTF-8-decode a token stream: literal characters pass through,
escaped bytes must form valid UTF-8 sequences. -/
def utf8DecodeToks : List PctTok → Option (List Char)
  | [] => some []
  | PctTok.lit c :: ts => (utf8DecodeToks ts).map (fun l => c :: l)
  | PctTok.byte b :: ts =>
    if b < 0x80 then (utf8DecodeToks ts).map (fun l => Char.ofNat b :: l)
    else if 0xC2 ≤ b ∧ b ≤ 0xDF then
      match ts with
      | PctTok.byte b2 :: ts2 =>
        if isContByte b2 then
          (utf8DecodeToks ts2).map (fun l => Char.ofNat (0x40 * (b - 0xC0) + (b2 - 0x80)) :: l)
        else none
      | _ => none
    else if 0xE0 ≤ b ∧ b ≤ 0xEF then
      match ts with
      | PctTok.byte b2 :: PctTok.byte b3 :: ts3 =>
        if cont3Ok b b2 ∧ isContByte b3 then
          (utf8DecodeToks ts3).map
            (fun l => Char.ofNat (0x1000 * (b - 0xE0) + 0x40 * (b2 - 0x80) + (b3 - 0x80)) :: l)
        else none
      | _ => none
    else if 0xF0 ≤ b ∧ b ≤ 0xF4 then
      match ts with
      | PctTok.byte b2 :: PctTok.byte b3 :: PctTok.byte b4 :: ts4 =>
        if cont4Ok b b2 ∧ isContByte b3 ∧ isContByte b4 then
          (utf8DecodeToks ts4).map
            (fun l => Char.ofNat
              (0x40000 * (b - 0xF0) + 0x1000 * (b2 - 0x80) + 0x40 * (b3 - 0x80) + (b4 - 0x80)) :: l)
        else none
      | _ => none
    else none

/-- JavaScript `decodeURIComponent`; `none` models a thrown `URIError`. -/
def decodeURIComponent (s : String) : Option String :=
  match pctToks s.toList with
  | none => none
  | some ts =>
    match utf8DecodeToks ts with
    | none => none
    | some cs => some (String.mk cs)

/-! ### JavaScript `encodeURIComponent` -/

def isUnreservedChar (c : Char) : Bool :=
  c.isAlphanum || c ∈ ['-', '_', '.', '!', '~', '*', Char.ofNat 39, '(', ')']

def hexUpper (n : Nat) : Char :=
  if n < 10 then Char.ofNat ('0'.toNat + n) else Char.ofNat ('A'.toNat + n - 10)

def utf8Bytes (c : Char) : List Nat :=
  let n := c.toNat
  if n < 0x80 then [n]
  else if n < 0x800 then [0xC0 + n / 0x40, 0x80 + n % 0x40]
  else if n < 0x10000 then [0xE0 + n / 0x1000, 0x80 + n / 0x40 % 0x40, 0x80 + n % 0x40]
  else [0xF0 + n / 0x40000, 0x80 + n / 0x1000 % 0x40, 0x80 + n / 0x40 % 0x40, 0x80 + n % 0x40]

def encodeURIComponent (s : String) : String :=
  String.mk (s.toList.flatMap fun c =>
    if isUnreservedChar c then [c]
    else (utf8Bytes c).flatMap fun b => ['%', hexUpper (b / 16), hexUpper (b % 16)])

/-! ### `getPathInfo` (routes/models.js)

```js
function getPathInfo(encodedURN) {
    const urn = decodeURIComponent(encodedURN);
    const rootFileName = urn.slice(urn.lastIndexOf('/') + 1);
    const basePath = urn.slice(0, urn.lastIndexOf('/') + 1);
    const localPath = basePath.slice(basePath.indexOf('/') + 1).replace(/^output\//, '');
    return { urn, rootFileName, localPath, basePath };
}
```
-/

/-- JS `urn.slice(urn.lastIndexOf('/') + 1)`: the suffix after the last
slash (the whole string when there is no slash). -/
def afterLastSlash : List Char → List Char
  | [] => []
  | c :: rest => if c = '/' ∨ '/' ∈ rest then afterLastSlash rest else c :: rest

/-- JS `urn.slice(0, urn.lastIndexOf('/') + 1)`: the prefix up to and
including the last slash (empty when there is no slash). -/
def upToLastSlash (l : List Char) : List Char :=
  l.take (l.length - (afterLastSlash l).length)

/-- JS `s.slice(s.indexOf('/') + 1)`: everything after the first slash when
one exists; `indexOf` returns `-1` otherwise, so `slice(0)` returns the
whole string. -/
def afterFirstSlashCore : List Char → List Char
  | [] => []
  | c :: rest => if c = '/' then rest else afterFirstSlashCore rest

def sliceAfterFirstSlash (l : List Char) : List Char :=
  if '/' ∈ l then afterFirstSlashCore l else l

/-- JS `.replace(/^output\//, '')`: strip one leading `output/`. -/
def stripOutput (l : List Char) : List Char :=
  if ("output/".toList).isPrefixOf l then l.drop 7 else l

structure PathInfo where
  urn : String
  rootFileName : String
  localPath : String
  basePath : String
deriving Repr, DecidableEq

/-- The body of `getPathInfo` after the `decodeURIComponent` call. -/
def pathInfoCore (urn : String) : PathInfo :=
  let l := urn.toList
  let rootFileName := afterLastSlash l
  let basePath := upToLastSlash l
  let localPath := stripOutput (sliceAfterFirstSlash basePath)
  { urn := urn
    rootFileName := String.mk rootFileName
    localPath := String.mk localPath
    basePath := String.mk basePath }

/-- The function `getPathInfo`; `none` models the `URIError` thrown by
`decodeURIComponent` on malformed input. -/
def getPathInfo (encodedURN : String) : Option PathInfo :=
  match decodeURIComponent encodedURN with
  | none => none
  | some urn => some (pathInfoCore urn)

/-! ### Manifest resolver (`parseManifest`, routes/models.js)

A manifest node carries `guid`, `mime`, `urn`, an optional `role`
(`undefined` in JS is `none`) and a list of children (`undefined` or
`[]` behave identically under `if (node.children) node.children.forEach`,
both are modelled as `[]`).  The top-level manifest's `derivatives`
field may be absent. -/

inductive ManifestNode where
  | mk (guid : String) (mime : String) (urn : String)
       (role : Option String) (children : List ManifestNode)
deriving Repr

def ManifestNode.children : ManifestNode → List ManifestNode
  | .mk _ _ _ _ cs => cs

structure Manifest where
  derivatives : Option (List ManifestNode)
deriving Repr

/-- The fixed role allow-list from `parseManifest`. -/
def roles : List String :=
  ["Autodesk.CloudPlatform.DesignDescription",
   "Autodesk.CloudPlatform.PropertyDatabase",
   "Autodesk.CloudPlatform.IndexableContent",
   "leaflet-zip",
   "thumbnail",
   "graphics",
   "preview",
   "raas",
   "pdf",
   "lod"]

/-- JS `roles.includes(node.role)`; a missing role never matches. -/
def roleMatches (r : Option String) : Bool :=
  match r with
  | some s => roles.contains s
  | none => false

/-- A derivative descriptor: `{guid, mime}` merged with the fields of
`getPathInfo(node.urn)`. -/
structure Item where
  guid : String
  mime : String
  urn : String
  rootFileName : String
  localPath : String
  basePath : String
deriving Repr, DecidableEq

def mkItem (guid mime : String) (p : PathInfo) : Item :=
  { guid := guid
    mime := mime
    urn := p.urn
    rootFileName := p.rootFileName
    localPath := p.localPath
    basePath := p.basePath }

mutual
/-- The inner `parse` closure of `parseManifest`: emit a descriptor for
a node whose role is allow-listed, then recurse into the children;
`none` models the `URIError` that `getPathInfo` raises on a malformed
`urn` of a matching node. -/
def parseNode : ManifestNode → Option (List Item)
  | .mk g mi u r cs =>
    match (if roleMatches r then (getPathInfo u).map (fun p => [mkItem g mi p]) else some []) with
    | none => none
    | some own =>
      match parseNodes cs with
      | none => none
      | some rest => some (own ++ rest)

def parseNodes : List ManifestNode → Option (List Item)
  | [] => some []
  | n :: ns =>
    match parseNode n with
    | none => none
    | some a =>
      match parseNodes ns with
      | none => none
      | some b => some (a ++ b)
end

/-- The function `parseManifest`: walk from the synthetic root
`{children: manifest.derivatives}` (which has no `role`, hence never
matches). -/
def parseManifest (m : Manifest) : Option (List Item) :=
  parseNode (ManifestNode.mk "" "" "" none (m.derivatives.getD []))

mutual
/-- Number of nodes of a subtree (the node itself included) whose role
is in the allow-list. -/
def countNode : ManifestNode → Nat
  | .mk _ _ _ r cs => (if roleMatches r then 1 else 0) + countNodes cs

def countNodes : List ManifestNode → Nat
  | [] => 0
  | n :: ns => countNode n + countNodes ns
end

/-- Number of allow-listed nodes at any depth of the manifest. -/
def countMatching (m : Manifest) : Nat :=
  countNodes (m.derivatives.getD [])

/-! ### Derivative file enumerator (routes/models.js)

`getDerivativesSVF` downloads the binary derivative, unzips it, and
parses `manifest.json`; `getDerivativesF2D` downloads
`basePath + 'manifest.json.gz'`, gunzips and parses it.  Both then
filter the inner manifest's `assets` by URI.  The
download/unzip/gunzip/parse pipeline is external effect; it is modelled
as an environment mapping the requested urn to either the parsed inner
manifest or an error (network failure, bad archive, bad JSON). -/

structure Asset where
  URI : String
deriving Repr, DecidableEq

/-- The parsed inner `manifest.json` of a derivative package; `assets`
is `none` when the field is absent. -/
structure InnerManifest where
  assets : Option (List Asset)
deriving Repr, DecidableEq

/-- JS `l.indexOf(pat) !== -1`: `pat` occurs as a contiguous substring. -/
def hasSubList : List Char → List Char → Bool
  | l, pat =>
    if pat.isPrefixOf l then true
    else
      match l with
      | [] => false
      | _ :: rest => hasSubList rest pat

/-- JavaScript `String.prototype.includes` / `indexOf(...) !== -1`. -/
def strIncludes (s pat : String) : Bool :=
  hasSubList s.toList pat.toList

/-- The shared `assets`/`embed:/` filter of both enumerators:
`manifest.assets.map(a => a.URI).filter(uri => uri.indexOf('embed:/') === -1)`,
returning `[]` when `assets` is absent. -/
def innerManifestFiles (m : InnerManifest) : List String :=
  match m.assets with
  | none => []
  | some assets => (assets.map Asset.URI).filter (fun uri => !strIncludes uri "embed:/")

/-- External-effect environment of the server routes. -/
structure ServerEnv where
  /-- Download the derivative at a urn, unzip it and parse its
  `manifest.json` (the pipeline of `getDerivativesSVF`). -/
  svfArchive : String → Except String InnerManifest
  /-- Download a `.gz` object at a urn, gunzip it and parse it as JSON
  (the pipeline of `getDerivativesF2D`). -/
  gzManifest : String → Except String InnerManifest

def getDerivativesSVF (env : ServerEnv) (urn : String) : Except String (List String) :=
  match env.svfArchive urn with
  | .error e => .error e
  | .ok m => .ok (innerManifestFiles m)

def getDerivativesF2D (env : ServerEnv) (item : Item) : Except String (List String) :=
  match env.gzManifest (item.basePath ++ "manifest.json.gz") with
  | .error e => .error e
  | .ok m => .ok (innerManifestFiles m ++ ["manifest.json.gz"])

/-- The per-item `switch (item.mime)` of the
`GET /api/models/:urn/files` route. -/
def enumerateFiles (env : ServerEnv) (item : Item) : Except String (List String) :=
  match item.mime with
  | "application/autodesk-svf" => getDerivativesSVF env item.urn
  | "application/autodesk-f2d" => getDerivativesF2D env item
  | "application/autodesk-db" =>
    .ok ["objects_attrs.json.gz", "objects_vals.json.gz", "objects_offs.json.gz",
         "objects_ids.json.gz", "objects_avs.json.gz", item.rootFileName]
  | _ => .ok [item.rootFileName]

/-! ### Service-worker cache controller (public/service-worker.js)

The cache store (`caches.open(CACHE_NAME)`) is modelled as an
association list from request URL to captured response; the Cache API
keeps at most one entry per request URL, stated as `Nodup` of the keys
where a proof needs it.  `cache.put(url, resp)` overwrites the entry
for that URL or appends a new one. -/

/-- An opaque captured HTTP response body. -/
structure Resp where
  body : String
deriving Repr, DecidableEq

abbrev Store : Type := List (String × Resp)

def Store.keys (s : Store) : List String := s.map Prod.fst

/-- JS `cache.put(url, resp)`: overwrite-or-append. -/
def cachePut (k : String) (v : Resp) (s : Store) : Store :=
  if s.any (fun e => e.1 = k) then
    s.map (fun e => if e.1 = k then (k, v) else e)
  else
    s ++ [(k, v)]

/-- JS `cache.delete(request)`: remove the entry with that request URL. -/
def cacheDelete (s : Store) (k : String) : Store :=
  s.filter (fun e => e.1 ≠ k)

/-- First stored response for a URL. -/
def cacheLookup (k : String) (s : Store) : Option Resp :=
  (s.find? (fun e => e.1 = k)).map Prod.snd

/-- One element of the JSON array returned by
`GET /api/models/:urn/files`, as consumed by `cacheUrn` (only the
`urn`, `basePath` and `files` fields are read). -/
structure DerivFile where
  urn : String
  basePath : String
  files : List String
deriving Repr, DecidableEq

def swBaseUrl : String := "https://developer.api.autodesk.com/derivativeservice/v2"

def manifestUrl (urn : String) : String := swBaseUrl ++ "/manifest/" ++ urn

def derivativeUrl (urn : String) : String :=
  swBaseUrl ++ "/derivatives/" ++ encodeURIComponent urn

/-- The full list of URLs `cacheUrn` fetches (in the order the `fetches`
array is built): the manifest URL, then for each derivative its binary
URL followed by its `basePath + file` URLs. -/
def cacheUrls (urn : String) (derivatives : List DerivFile) : List String :=
  manifestUrl urn ::
    derivatives.flatMap (fun d =>
      derivativeUrl d.urn :: d.files.map (fun f => derivativeUrl (d.basePath ++ f)))

/-- External-effect environment of the service worker. -/
structure SwEnv where
  /-- JS `fetch('/api/models/' + urn + '/files')` followed by `res.json()`:
  the parsed derivative list, or an error (network failure or bad
  JSON). -/
  filesEndpoint : String → Except String (List DerivFile)
  /-- JS `fetch(url, ...)` with a bearer `Authorization` header:
  `none` models a rejected fetch. -/
  fetchResp : (token : String) → (url : String) → Option Resp

/-- The cache writes of `cacheUrn`'s fetch chains: each URL whose fetch
succeeds is `put` into the store; a rejected fetch writes nothing (its
rejection is observed by `Promise.all`, but the sibling chains still
run to completion). -/
def putFetched (env : SwEnv) (token : String) (s : Store) (urls : List String) : Store :=
  urls.foldl
    (fun acc u =>
      match env.fetchResp token u with
      | some r => cachePut u r acc
      | none => acc)
    s

/-- The task `cacheUrn(urn, access_token)`: resolve the file list from the
server, fetch every URL concurrently writing each success into the
cache, and join with `Promise.all` — the task resolves with the URL
list only when every fetch succeeded, and rejects otherwise. -/
def cacheUrn (env : SwEnv) (s : Store) (urn : String) (token : String) :
    Store × Except String (List String) :=
  match env.filesEndpoint urn with
  | .error e => (s, .error e)
  | .ok derivatives =>
    let urls := cacheUrls urn derivatives
    let s2 := putFetched env token s urls
    if urls.all (fun u => (env.fetchResp token u).isSome) then
      (s2, .ok urls)
    else
      (s2, .error "TypeError: Failed to fetch")

/-- The task `clearUrn(urn)`: list the cached request keys, keep those whose URL
contains `urn`, delete each, return their URLs. -/
def clearUrn (s : Store) (urn : String) : Store × List String :=
  let requests := (Store.keys s).filter (fun u => strIncludes u urn)
  (requests.foldl cacheDelete s, requests)

/-- The task `listCached()`: every cached request URL. -/
def listCached (s : Store) : List String :=
  Store.keys s

/-- The fields of `event.data` read by `messageAsync` (a missing field
reads as the empty string for the purposes of this model; only
`operation` is ever dispatched on). -/
structure MessageData where
  operation : String
  urn : String
  access_token : String
deriving Repr, DecidableEq

/-- A reply posted on `event.ports[0]`. -/
inductive Reply where
  | ok (urls : List String)
  | error (msg : String)
deriving Repr, DecidableEq

def toReply : Except String (List String) → Reply
  | .ok urls => Reply.ok urls
  | .error e => Reply.error e

/-- The handler `messageAsync(event)`: dispatch on `event.data.operation`; each of
the three known operations runs its task inside `try`/`catch` and posts
exactly one message — `{status:'ok', urls}` on success or `{error}` on
a caught exception.  An operation not handled by the `switch` falls
through and posts nothing.  Returns the store after the task together
with the list of posted replies. -/
def messageAsync (env : SwEnv) (s : Store) (data : MessageData) : Store × List Reply :=
  match data.operation with
  | "CACHE_URN" =>
    let (s2, res) := cacheUrn env s data.urn data.access_token
    (s2, [toReply res])
  | "CLEAR_URN" =>
    let (s2, urls) := clearUrn s data.urn
    (s2, [toReply (.ok urls)])
  | "LIST_CACHES" =>
    (s, [toReply (.ok (listCached s))])
  | _ => (s, [])

/-! ### Concrete instances used by witnesses -/

/-- A concrete service-worker environment: the files endpoint returns
one derivative with one dependent file, and every fetch succeeds with a
response echoing the URL. -/
def wSwEnv : SwEnv :=
  { filesEndpoint := fun _ =>
      .ok [{ urn := "bucket/output/model.svf", basePath := "bucket/output/", files := ["props.db"] }]
    fetchResp := fun _ url => some { body := url } }

/-- A concrete manifest: a top-level node with an unlisted role whose
child has an allow-listed role. -/
def wManifest : Manifest :=
  { derivatives := some
      [ManifestNode.mk "g0" "application/autodesk-svf" "bucket/output/sub/model.svf"
        (some "unlisted-role")
        [ManifestNode.mk "g1" "application/autodesk-db" "bucket/output/props.db"
          (some "Autodesk.CloudPlatform.PropertyDatabase") []]] }

/-! ## Helper lemmas -/

theorem string_mk_toList (s : String) : String.mk s.toList = s := by
  cases s
  rfl

theorem afterLastSlash_of_no_slash (l : List Char) (h : '/' ∉ l) :
    afterLastSlash l = l := by
  cases l with
  | nil => rfl
  | cons c rest =>
    have hc : ¬(c = '/' ∨ '/' ∈ rest) := by
      rintro (rfl | hm)
      · exact h (List.mem_cons_self _ _)
      · exact h (List.mem_cons_of_mem _ hm)
    simp [afterLastSlash, hc]

theorem pathInfoCore_of_no_slash (d : String) (h : '/' ∉ d.toList) :
    pathInfoCore d = { urn := d, rootFileName := d, localPath := "", basePath := "" } := by
  have hals : afterLastSlash d.toList = d.toList := afterLastSlash_of_no_slash _ h
  have hbase : upToLastSlash d.toList = [] := by
    rw [upToLastSlash, hals]
    simp
  have h1 : pathInfoCore d =
      { urn := d
        rootFileName := String.mk (afterLastSlash d.toList)
        localPath := String.mk (stripOutput (sliceAfterFirstSlash (upToLastSlash d.toList)))
        basePath := String.mk (upToLastSlash d.toList) } := rfl
  rw [h1, hals, hbase, string_mk_toList]
  rfl

/-! ## Claim theorems -/

/-- C4: `getPathInfo` is a pure function of its urn argument (it is
embedded as a pure Lean function of that argument alone), and for the
input whose percent-decoded form is `bucket/output/dir/sub/file.ext` it
returns `rootFileName = "file.ext"`, `basePath = "bucket/output/dir/sub/"`
and `localPath = "dir/sub/"`. -/
theorem getPathInfo_example (s : String)
    (h : decodeURIComponent s = some "bucket/output/dir/sub/file.ext") :
    getPathInfo s = some
      { urn := "bucket/output/dir/sub/file.ext"
        rootFileName := "file.ext"
        localPath := "dir/sub/"
        basePath := "bucket/output/dir/sub/" } := by
  have hg : getPathInfo s = some (pathInfoCore "bucket/output/dir/sub/file.ext") := by
    rw [getPathInfo, h]
  rw [hg]
  rfl

/-- Witness for C4 at the percent-free input
`bucket/output/dir/sub/file.ext` (its own decoded form). -/
theorem getPathInfo_example_witness :
    getPathInfo "bucket/output/dir/sub/file.ext" = some
      { urn := "bucket/output/dir/sub/file.ext"
        rootFileName := "file.ext"
        localPath := "dir/sub/"
        basePath := "bucket/output/dir/sub/" } :=
  getPathInfo_example "bucket/output/dir/sub/file.ext" (by rfl)

/-- C10: for every input whose percent-decoded form contains no `/`,
`getPathInfo` returns the whole decoded urn as `rootFileName` and empty
`basePath` and `localPath`, raising no error and leaving no field
undefined. -/
theorem getPathInfo_no_slash (s d : String)
    (hdec : decodeURIComponent s = some d) (hns : '/' ∉ d.toList) :
    getPathInfo s = some { urn := d, rootFileName := d, localPath := "", basePath := "" } := by
  have hg : getPathInfo s = some (pathInfoCore d) := by
    rw [getPathInfo, hdec]
  rw [hg, pathInfoCore_of_no_slash d hns]

/-- Witness for C10 at the slash-free input `thumbnail.png`. -/
theorem getPathInfo_no_slash_witness :
    getPathInfo "thumbnail.png" = some
      { urn := "thumbnail.png", rootFileName := "thumbnail.png"
        localPath := "", basePath := "" } :=
  getPathInfo_no_slash "thumbnail.png" "thumbnail.png" (by rfl) (by decide)

/-- C6: a manifest without a `derivatives` field parses to the empty
descriptor list rather than an error. -/
theorem parseManifest_missing_derivatives :
    parseManifest { derivatives := none } = some [] := by
  simp [parseManifest, parseNode, parseNodes, roleMatches]

/-- Counterexample for C5: for a concrete `application/autodesk-db`
descriptor, the enumerated file list does not have seven elements (it
has six: five fixed companion files plus the root file name). -/
theorem enumerateFiles_db_seven_cex :
    ¬ ∃ files, enumerateFiles
        { svfArchive := fun _ => .error "offline", gzManifest := fun _ => .error "offline" }
        { guid := "g", mime := "application/autodesk-db", urn := "bucket/output/model.sdb"
          rootFileName := "model.sdb", localPath := "", basePath := "bucket/output/" } =
        .ok files ∧ files.length = 7 := by
  rintro ⟨files, hok, hlen⟩
  have : files =
      ["objects_attrs.json.gz", "objects_vals.json.gz", "objects_offs.json.gz",
       "objects_ids.json.gz", "objects_avs.json.gz", "model.sdb"] := by
    have h2 : enumerateFiles
        { svfArchive := fun _ => .error "offline", gzManifest := fun _ => .error "offline" }
        { guid := "g", mime := "application/autodesk-db", urn := "bucket/output/model.sdb"
          rootFileName := "model.sdb", localPath := "", basePath := "bucket/output/" } =
        .ok ["objects_attrs.json.gz", "objects_vals.json.gz", "objects_offs.json.gz",
             "objects_ids.json.gz", "objects_avs.json.gz", "model.sdb"] := by rfl
    rw [h2] at hok
    exact (Except.ok.injEq _ _).mp hok.symm
  rw [this] at hlen
  simp at hlen

/-- C5 (amended): for every descriptor whose mime is
`application/autodesk-db` and every environment, enumeration performs
no network call (the result is independent of the environment) and
returns the fixed six-element list of the five well-known companion
filenames plus the descriptor's own root file name. -/
theorem enumerateFiles_db (env : ServerEnv) (item : Item)
    (h : item.mime = "application/autodesk-db") :
    enumerateFiles env item =
      .ok ["objects_attrs.json.gz", "objects_vals.json.gz", "objects_offs.json.gz",
           "objects_ids.json.gz", "objects_avs.json.gz", item.rootFileName] ∧
    ∀ files, enumerateFiles env item = .ok files → files.length = 6 := by
  have heq : enumerateFiles env item =
      .ok ["objects_attrs.json.gz", "objects_vals.json.gz", "objects_offs.json.gz",
           "objects_ids.json.gz", "objects_avs.json.gz", item.rootFileName] := by
    rw [enumerateFiles, h]
    rfl
  refine ⟨heq, ?_⟩
  intro files hf
  rw [heq] at hf
  have : files =
      ["objects_attrs.json.gz", "objects_vals.json.gz", "objects_offs.json.gz",
       "objects_ids.json.gz", "objects_avs.json.gz", item.rootFileName] :=
    (Except.ok.injEq _ _).mp hf.symm
  rw [this]
  rfl

/-- Witness for C5 (amended) at a concrete descriptor and an
environment in which every download fails. -/
theorem enumerateFiles_db_witness :
    enumerateFiles
      { svfArchive := fun _ => .error "offline", gzManifest := fun _ => .error "offline" }
      { guid := "w", mime := "application/autodesk-db", urn := "bucket/output/db.sdb"
        rootFileName := "db.sdb", localPath := "", basePath := "bucket/output/" } =
      .ok ["objects_attrs.json.gz", "objects_vals.json.gz", "objects_offs.json.gz",
           "objects_ids.json.gz", "objects_avs.json.gz", "db.sdb"] :=
  (enumerateFiles_db
    { svfArchive := fun _ => .error "offline", gzManifest := fun _ => .error "offline" }
    { guid := "w", mime := "application/autodesk-db", urn := "bucket/output/db.sdb"
      rootFileName := "db.sdb", localPath := "", basePath := "bucket/output/" }
    rfl).1

/-- C7: for every SVF derivative whose downloaded archive yields an
inner manifest, enumeration returns the manifest's asset URIs with
every URI containing `embed:/` dropped, and the empty list when the
inner manifest has no `assets` field. -/
theorem svf_enumeration (env : ServerEnv) (item : Item) (m : InnerManifest)
    (hmime : item.mime = "application/autodesk-svf")
    (harch : env.svfArchive item.urn = .ok m) :
    enumerateFiles env item = .ok (innerManifestFiles m) ∧
    (m.assets = none → innerManifestFiles m = []) ∧
    (∀ assets, m.assets = some assets →
      innerManifestFiles m =
        (assets.map Asset.URI).filter (fun uri => !strIncludes uri "embed:/")) := by
  refine ⟨?_, ?_, ?_⟩
  · rw [enumerateFiles, hmime]
    show getDerivativesSVF env item.urn = _
    rw [getDerivativesSVF, harch]
  · intro h
    rw [innerManifestFiles, h]
  · intro assets h
    rw [innerManifestFiles, h]

/-- Witness for C7: an archive whose inner manifest has
`assets:[{URI:'a.png'}, {URI:'embed:/b'}]` enumerates to exactly
`['a.png']`. -/
theorem svf_enumeration_witness :
    enumerateFiles
      { svfArchive := fun _ => .ok { assets := some [{ URI := "a.png" }, { URI := "embed:/b" }] }
        gzManifest := fun _ => .error "offline" }
      { guid := "w7", mime := "application/autodesk-svf", urn := "bucket/output/0.svf"
        rootFileName := "0.svf", localPath := "", basePath := "bucket/output/" } =
      .ok ["a.png"] := by
  have h := svf_enumeration
    { svfArchive := fun _ => .ok { assets := some [{ URI := "a.png" }, { URI := "embed:/b" }] }
      gzManifest := fun _ => .error "offline" }
    { guid := "w7", mime := "application/autodesk-svf", urn := "bucket/output/0.svf"
      rootFileName := "0.svf", localPath := "", basePath := "bucket/output/" }
    { assets := some [{ URI := "a.png" }, { URI := "embed:/b" }] }
    rfl rfl
  rw [h.1]
  rfl

theorem list_contains_eq_decide_mem (l : List String) (a : String) :
    l.contains a = decide (a ∈ l) := by
  induction l with
  | nil => rfl
  | cons b bs ih =>
    by_cases hab : a = b
    · simp [List.contains_cons, hab]
    · simp [List.contains_cons, hab, ih]

theorem foldl_cacheDelete (ks : List String) (s : Store) :
    ks.foldl cacheDelete s = s.filter (fun e => !ks.contains e.1) := by
  induction ks generalizing s with
  | nil => simp
  | cons k ks ih =>
    rw [List.foldl_cons, ih, cacheDelete, List.filter_filter]
    apply List.filter_congr
    intro e _
    by_cases hek : e.1 = k
    · simp [hek, List.contains_cons]
    · simp [hek, Ne.symm hek, List.contains_cons]

/-- C8: `clearUrn` deletes exactly the cached entries whose URL
contains the identifier as a substring (every non-matching entry is
kept), and returns the list of deleted URLs (empty when nothing
matches). -/
theorem clearUrn_exact (s : Store) (urn : String) :
    (clearUrn s urn).1 = s.filter (fun e => !strIncludes e.1 urn) ∧
    (clearUrn s urn).2 = (Store.keys s).filter (fun u => strIncludes u urn) := by
  constructor
  · show ((Store.keys s).filter (fun u => strIncludes u urn)).foldl cacheDelete s = _
    rw [foldl_cacheDelete]
    apply List.filter_congr
    intro e he
    have hmem : e.1 ∈ Store.keys s := List.mem_map_of_mem Prod.fst he
    by_cases hinc : strIncludes e.1 urn = true
    · simp [list_contains_eq_decide_mem, List.mem_filter, hmem, hinc]
    · simp [list_contains_eq_decide_mem, List.mem_filter, hinc]
  · rfl

/-- Counterexample for C1: a task message whose operation is an
unrecognized value (here `FROBNICATE`) falls through the `switch` in
`messageAsync`, and the controller posts no reply at all — not exactly
one. -/
theorem messageAsync_unknown_cex :
    ¬ ((messageAsync
          { filesEndpoint := fun _ => Except.error "offline", fetchResp := fun _ _ => none }
          [] { operation := "FROBNICATE", urn := "u", access_token := "t" }).2).length = 1 := by
  decide

/-- C1 (amended): for every task message whose operation is
`CACHE_URN`, `CLEAR_URN` or `LIST_CACHES`, the controller posts exactly
one reply — a success payload or an error payload — and a failing task
(an internal exception) yields an error reply rather than an unhandled
rejection; a message with any other operation value receives no reply. -/
theorem messageAsync_known_ops (env : SwEnv) (s : Store) (data : MessageData)
    (h : data.operation = "CACHE_URN" ∨ data.operation = "CLEAR_URN" ∨
         data.operation = "LIST_CACHES") :
    ((messageAsync env s data).2).length = 1 ∧
    (∀ r ∈ (messageAsync env s data).2,
      (∃ urls, r = Reply.ok urls) ∨ (∃ msg, r = Reply.error msg)) ∧
    (∀ e, data.operation = "CACHE_URN" →
      (cacheUrn env s data.urn data.access_token).2 = .error e →
      (messageAsync env s data).2 = [Reply.error e]) := by
  rcases h with h | h | h
  · have hm : messageAsync env s data =
        ((cacheUrn env s data.urn data.access_token).1,
         [toReply (cacheUrn env s data.urn data.access_token).2]) := by
      rw [messageAsync, h]
      rfl
    refine ⟨by rw [hm]; rfl, ?_, ?_⟩
    · intro r hr
      rw [hm] at hr
      have hr2 : r = toReply (cacheUrn env s data.urn data.access_token).2 :=
        List.mem_singleton.mp hr
      cases hres : (cacheUrn env s data.urn data.access_token).2 with
      | ok urls => exact Or.inl ⟨urls, by rw [hr2, hres]; rfl⟩
      | error msg => exact Or.inr ⟨msg, by rw [hr2, hres]; rfl⟩
    · intro e _ hres
      rw [hm, hres]
      rfl
  · have hm : messageAsync env s data =
        ((clearUrn s data.urn).1, [toReply (.ok (clearUrn s data.urn).2)]) := by
      rw [messageAsync, h]
      rfl
    refine ⟨by rw [hm]; rfl, ?_, ?_⟩
    · intro r hr
      rw [hm] at hr
      exact Or.inl ⟨(clearUrn s data.urn).2, List.mem_singleton.mp hr⟩
    · intro e hop _
      rw [h] at hop
      exact absurd hop (by decide)
  · have hm : messageAsync env s data =
        (s, [toReply (.ok (listCached s))]) := by
      rw [messageAsync, h]
      rfl
    refine ⟨by rw [hm]; rfl, ?_, ?_⟩
    · intro r hr
      rw [hm] at hr
      exact Or.inl ⟨listCached s, List.mem_singleton.mp hr⟩
    · intro e hop _
      rw [h] at hop
      exact absurd hop (by decide)

/-- Witness for C1 (amended): a concrete `LIST_CACHES` task receives
exactly one reply. -/
theorem messageAsync_known_ops_witness :
    ((messageAsync
        { filesEndpoint := fun _ => Except.error "offline", fetchResp := fun _ _ => none }
        [("https://example.com/a", { body := "x" })]
        { operation := "LIST_CACHES", urn := "", access_token := "" }).2).length = 1 :=
  (messageAsync_known_ops
    { filesEndpoint := fun _ => Except.error "offline", fetchResp := fun _ _ => none }
    [("https://example.com/a", { body := "x" })]
    { operation := "LIST_CACHES", urn := "", access_token := "" }
    (Or.inr (Or.inr rfl))).1

/-! ## Cache store lemmas (for C2 and C9) -/

theorem any_key_eq_true_iff (s : Store) (k : String) :
    (s.any fun e => decide (e.1 = k)) = true ↔ k ∈ Store.keys s := by
  rw [List.any_eq_true]
  constructor
  · rintro ⟨e, he, hek⟩
    exact (of_decide_eq_true hek) ▸ List.mem_map_of_mem Prod.fst he
  · intro hk
    rcases List.mem_map.mp hk with ⟨e, he, hek⟩
    exact ⟨e, he, decide_eq_true hek⟩

theorem keys_cachePut_mem (k : String) (v : Resp) (s : Store) (hk : k ∈ Store.keys s) :
    Store.keys (cachePut k v s) = Store.keys s := by
  rw [cachePut, if_pos ((any_key_eq_true_iff s k).mpr hk)]
  rw [Store.keys, Store.keys, List.map_map]
  apply List.map_congr_left
  intro e _
  by_cases hek : e.1 = k
  · simp [hek]
  · simp [hek]

theorem keys_cachePut_not_mem (k : String) (v : Resp) (s : Store) (hk : k ∉ Store.keys s) :
    Store.keys (cachePut k v s) = Store.keys s ++ [k] := by
  have hany : ¬ ((s.any fun e => decide (e.1 = k)) = true) := fun h =>
    hk ((any_key_eq_true_iff s k).mp h)
  rw [cachePut, if_neg hany, Store.keys, List.map_append]
  rfl

theorem nodup_keys_cachePut (k : String) (v : Resp) (s : Store)
    (h : (Store.keys s).Nodup) : (Store.keys (cachePut k v s)).Nodup := by
  by_cases hk : k ∈ Store.keys s
  · rw [keys_cachePut_mem k v s hk]
    exact h
  · rw [keys_cachePut_not_mem k v s hk]
    simp [List.nodup_append, h, hk]

theorem cacheLookup_map_replace (k : String) (v : Resp) :
    ∀ s : Store, k ∈ Store.keys s →
      cacheLookup k (s.map fun e => if e.1 = k then (k, v) else e) = some v := by
  intro s
  induction s with
  | nil => intro h; simp [Store.keys] at h
  | cons e tl ih =>
    intro hk
    rw [List.map_cons]
    by_cases hek : e.1 = k
    · rw [if_pos hek, cacheLookup, List.find?_cons_of_pos _ (by simp)]
      rfl
    · rw [if_neg hek, cacheLookup, List.find?_cons_of_neg _ (by simp [hek])]
      have hktl : k ∈ Store.keys tl := by
        rcases List.mem_map.mp hk with ⟨x, hx, hxk⟩
        rcases List.mem_cons.mp hx with rfl | hx2
        · exact absurd hxk hek
        · exact hxk ▸ List.mem_map_of_mem Prod.fst hx2
      exact ih hktl

theorem cacheLookup_append_self (k : String) (v : Resp) :
    ∀ s : Store, k ∉ Store.keys s → cacheLookup k (s ++ [(k, v)]) = some v := by
  intro s
  induction s with
  | nil => rw [List.nil_append, cacheLookup, List.find?_cons_of_pos _ (by simp)]; intro _; rfl
  | cons e tl ih =>
    intro hk
    have hek : ¬ (e.1 = k) := fun h => hk (h ▸ List.mem_map_of_mem Prod.fst (List.mem_cons_self e tl))
    rw [List.cons_append, cacheLookup, List.find?_cons_of_neg _ (by simp [hek])]
    exact ih (fun h => hk (List.mem_cons_of_mem _ h))

theorem cacheLookup_put_self (k : String) (v : Resp) (s : Store) :
    cacheLookup k (cachePut k v s) = some v := by
  by_cases hk : k ∈ Store.keys s
  · rw [cachePut, if_pos ((any_key_eq_true_iff s k).mpr hk)]
    exact cacheLookup_map_replace k v s hk
  · have hany : ¬ ((s.any fun e => decide (e.1 = k)) = true) := fun h =>
      hk ((any_key_eq_true_iff s k).mp h)
    rw [cachePut, if_neg hany]
    exact cacheLookup_append_self k v s hk

theorem cacheLookup_map_replace_other (k : String) (v : Resp) (k2 : String) (hne : k2 ≠ k) :
    ∀ s : Store, cacheLookup k2 (s.map fun e => if e.1 = k then (k, v) else e) =
      cacheLookup k2 s := by
  intro s
  induction s with
  | nil => rfl
  | cons e tl ih =>
    rw [List.map_cons]
    by_cases hek : e.1 = k
    · rw [if_pos hek]
      have h1 : ¬ (((k, v) : String × Resp).1 = k2) := fun h => hne (h.symm)
      have h2 : ¬ (e.1 = k2) := fun h => hne (h ▸ hek ▸ rfl)
      rw [cacheLookup, List.find?_cons_of_neg _ (by simp [h1]), cacheLookup,
        List.find?_cons_of_neg _ (by simp [h2])]
      exact ih
    · rw [if_neg hek]
      by_cases he2 : e.1 = k2
      · rw [cacheLookup, List.find?_cons_of_pos _ (by simp [he2]), cacheLookup,
          List.find?_cons_of_pos _ (by simp [he2])]
      · rw [cacheLookup, List.find?_cons_of_neg _ (by simp [he2]), cacheLookup,
          List.find?_cons_of_neg _ (by simp [he2])]
        exact ih

theorem cacheLookup_append_other (k : String) (v : Resp) (k2 : String) (hne : k2 ≠ k) :
    ∀ s : Store, cacheLookup k2 (s ++ [(k, v)]) = cacheLookup k2 s := by
  intro s
  induction s with
  | nil =>
    rw [List.nil_append, cacheLookup, List.find?_cons_of_neg _ (by simp [Ne.symm hne])]
    rfl
  | cons e tl ih =>
    by_cases he2 : e.1 = k2
    · rw [List.cons_append, cacheLookup, List.find?_cons_of_pos _ (by simp [he2]), cacheLookup,
        List.find?_cons_of_pos _ (by simp [he2])]
    · rw [List.cons_append, cacheLookup, List.find?_cons_of_neg _ (by simp [he2]), cacheLookup,
        List.find?_cons_of_neg _ (by simp [he2])]
      exact ih

theorem cacheLookup_put_other (k : String) (v : Resp) (k2 : String) (s : Store) (hne : k2 ≠ k) :
    cacheLookup k2 (cachePut k v s) = cacheLookup k2 s := by
  rw [cachePut]
  by_cases hany : (s.any fun e => decide (e.1 = k)) = true
  · rw [if_pos hany]
    exact cacheLookup_map_replace_other k v k2 hne s
  · rw [if_neg hany]
    exact cacheLookup_append_other k v k2 hne s

theorem mem_keys_of_cacheLookup_some (k : String) (v : Resp) (s : Store)
    (h : cacheLookup k s = some v) : k ∈ Store.keys s := by
  rw [cacheLookup] at h
  cases hf : s.find? (fun e => decide (e.1 = k)) with
  | none => rw [hf] at h; exact absurd h (by simp)
  | some x =>
    have hpx := List.find?_some hf
    have hxk : x.1 = k := by simpa using hpx
    exact hxk ▸ List.mem_map_of_mem Prod.fst (List.mem_of_find?_eq_some hf)

theorem map_replace_id (k : String) (v : Resp) :
    ∀ tl : Store, (∀ x ∈ tl, ¬ (x.1 = k)) →
      (tl.map fun e => if e.1 = k then (k, v) else e) = tl := by
  intro tl
  induction tl with
  | nil => intro _; rfl
  | cons x xs ih =>
    intro h
    rw [List.map_cons, if_neg (h x (List.mem_cons_self x xs)),
      ih (fun y hy => h y (List.mem_cons_of_mem x hy))]

theorem cachePut_self_of_lookup (k : String) (v : Resp) :
    ∀ s : Store, (Store.keys s).Nodup → cacheLookup k s = some v → cachePut k v s = s := by
  intro s
  induction s with
  | nil => intro _ hl; rw [cacheLookup] at hl; exact absurd hl (by simp)
  | cons e tl ih =>
    intro hnd hl
    have hnd' := hnd
    rw [Store.keys, List.map_cons, List.nodup_cons] at hnd'
    by_cases hek : e.1 = k
    · rw [cacheLookup, List.find?_cons_of_pos _ (by simp [hek])] at hl
      have hev : e.2 = v := by
        simpa using hl
      have he : e = (k, v) := by
        cases e
        simp only at hek hev
        rw [hek, hev]
      have hany : ((e :: tl).any fun x => decide (x.1 = k)) = true := by
        simp [List.any_cons, hek]
      rw [cachePut, if_pos hany, List.map_cons, if_pos hek]
      have htl : ∀ x ∈ tl, ¬ (x.1 = k) := by
        intro x hx hxk
        exact hnd'.1 (hek ▸ hxk ▸ List.mem_map_of_mem Prod.fst hx)
      rw [map_replace_id k v tl htl, ← he]
    · rw [cacheLookup, List.find?_cons_of_neg _ (by simp [hek])] at hl
      have hlt : cacheLookup k tl = some v := hl
      have hktl : k ∈ Store.keys tl := mem_keys_of_cacheLookup_some k v tl hlt
      have hanytl : (tl.any fun x => decide (x.1 = k)) = true :=
        (any_key_eq_true_iff tl k).mpr hktl
      have hany : ((e :: tl).any fun x => decide (x.1 = k)) = true := by
        simp [List.any_cons, hanytl]
      rw [cachePut, if_pos hany, List.map_cons, if_neg hek]
      have ihr := ih hnd'.2 hlt
      rw [cachePut, if_pos hanytl] at ihr
      rw [ihr]

/-- One step of `putFetched` unfolded. -/
theorem putFetched_cons (env : SwEnv) (token : String) (s : Store) (w : String)
    (ws : List String) :
    putFetched env token s (w :: ws) =
      putFetched env token
        (match env.fetchResp token w with
         | some r => cachePut w r s
         | none => s) ws := by
  rw [putFetched, List.foldl_cons]
  rfl

theorem putFetched_lookup_not_mem (env : SwEnv) (token u : String) :
    ∀ (urls : List String) (s : Store), u ∉ urls →
      cacheLookup u (putFetched env token s urls) = cacheLookup u s := by
  intro urls
  induction urls with
  | nil => intro s _; rfl
  | cons w ws ih =>
    intro s hu
    have hne : u ≠ w := fun h => hu (h ▸ List.mem_cons_self w ws)
    rw [putFetched_cons, ih _ (fun h => hu (List.mem_cons_of_mem w h))]
    cases henv : env.fetchResp token w with
    | none => rfl
    | some r => exact cacheLookup_put_other w r u s hne

theorem putFetched_lookup_mem (env : SwEnv) (token u : String) (r : Resp) :
    ∀ (urls : List String) (s : Store), u ∈ urls → env.fetchResp token u = some r →
      cacheLookup u (putFetched env token s urls) = some r := by
  intro urls
  induction urls with
  | nil => intro s h _; exact absurd h (List.not_mem_nil u)
  | cons w ws ih =>
    intro s hu henv
    rw [putFetched_cons]
    by_cases huw : u ∈ ws
    · exact ih _ huw henv
    · have huweq : u = w := by
        rcases List.mem_cons.mp hu with h | h
        · exact h
        · exact absurd h huw
      subst huweq
      rw [putFetched_lookup_not_mem env token u ws _ huw, henv]
      exact cacheLookup_put_self u r s

theorem nodup_keys_putFetched (env : SwEnv) (token : String) :
    ∀ (urls : List String) (s : Store), (Store.keys s).Nodup →
      (Store.keys (putFetched env token s urls)).Nodup := by
  intro urls
  induction urls with
  | nil => intro s h; exact h
  | cons w ws ih =>
    intro s hnd
    rw [putFetched_cons]
    cases henv : env.fetchResp token w with
    | none => exact ih _ hnd
    | some r => exact ih _ (nodup_keys_cachePut w r s hnd)

theorem putFetched_unchanged (env : SwEnv) (token : String) :
    ∀ (urls : List String) (s : Store), (Store.keys s).Nodup →
      (∀ u ∈ urls, ∀ r, env.fetchResp token u = some r → cacheLookup u s = some r) →
      putFetched env token s urls = s := by
  intro urls
  induction urls with
  | nil => intro s _ _; rfl
  | cons w ws ih =>
    intro s hnd hup
    rw [putFetched_cons]
    cases henv : env.fetchResp token w with
    | none => exact ih s hnd (fun u hu => hup u (List.mem_cons_of_mem w hu))
    | some r =>
      have hput : cachePut w r s = s :=
        cachePut_self_of_lookup w r s hnd (hup w (List.mem_cons_self w ws) r henv)
      show putFetched env token (cachePut w r s) ws = s
      rw [hput]
      exact ih s hnd (fun u hu => hup u (List.mem_cons_of_mem w hu))

theorem putFetched_idem (env : SwEnv) (token : String) (urls : List String) (s : Store)
    (hnd : (Store.keys s).Nodup) :
    putFetched env token (putFetched env token s urls) urls =
      putFetched env token s urls := by
  apply putFetched_unchanged
  · exact nodup_keys_putFetched env token urls s hnd
  · intro u hu r henv
    exact putFetched_lookup_mem env token u r urls s hu henv

/-- The store component of `cacheUrn`: unchanged when the files
endpoint fails, otherwise every successfully fetched URL written. -/
theorem cacheUrn_fst (env : SwEnv) (s : Store) (urn token : String) :
    (cacheUrn env s urn token).1 =
      (match env.filesEndpoint urn with
       | .error _ => s
       | .ok ds => putFetched env token s (cacheUrls urn ds)) := by
  rw [cacheUrn]
  cases env.filesEndpoint urn with
  | error e => rfl
  | ok ds =>
    by_cases hall : ((cacheUrls urn ds).all fun u => (env.fetchResp token u).isSome) = true
    · simp [hall]
    · simp [hall]

/-- C2: within `cacheUrn`, the manifest URL, every derivative's binary
URL and every derivative's `basePath + file` URL are fetched and joined
with all-or-nothing failure semantics: if every fetch succeeds the task
resolves with the flat list of all URLs cached, and if any single fetch
fails the whole task rejects with an error. -/
theorem cacheUrn_join (env : SwEnv) (s : Store) (urn token : String)
    (ds : List DerivFile) (hfiles : env.filesEndpoint urn = .ok ds) :
    ((∀ u ∈ cacheUrls urn ds, (env.fetchResp token u).isSome = true) →
      (cacheUrn env s urn token).2 = .ok (cacheUrls urn ds)) ∧
    ((∃ u ∈ cacheUrls urn ds, env.fetchResp token u = none) →
      (cacheUrn env s urn token).2 = .error "TypeError: Failed to fetch") := by
  have hc : cacheUrn env s urn token =
      (if ((cacheUrls urn ds).all fun u => (env.fetchResp token u).isSome) = true then
        (putFetched env token s (cacheUrls urn ds), .ok (cacheUrls urn ds))
       else (putFetched env token s (cacheUrls urn ds), .error "TypeError: Failed to fetch")) := by
    rw [cacheUrn, hfiles]
  constructor
  · intro hok
    have hall : ((cacheUrls urn ds).all fun u => (env.fetchResp token u).isSome) = true :=
      List.all_eq_true.mpr (fun u hu => hok u hu)
    rw [hc, if_pos hall]
  · rintro ⟨u, hu, hnone⟩
    have hnall : ¬ (((cacheUrls urn ds).all fun u => (env.fetchResp token u).isSome) = true) := by
      intro hal
      have := List.all_eq_true.mp hal u hu
      rw [hnone] at this
      exact absurd this (by simp)
    rw [hc, if_neg hnall]

/-- Witness for C2: in an environment where every fetch succeeds, the
concrete task resolves with the full flat URL list. -/
theorem cacheUrn_join_witness :
    (cacheUrn wSwEnv [] "URN1" "tok").2 =
      .ok (cacheUrls "URN1"
        [{ urn := "bucket/output/model.svf", basePath := "bucket/output/", files := ["props.db"] }]) :=
  (cacheUrn_join wSwEnv [] "URN1" "tok"
    [{ urn := "bucket/output/model.svf", basePath := "bucket/output/", files := ["props.db"] }]
    rfl).1 (by decide)

/-- C9: `cacheUrn` is idempotent on the cache store — with the same
upstream responses both times (the same environment), running the task
twice leaves the store exactly as after a single run. -/
theorem cacheUrn_idempotent (env : SwEnv) (s : Store) (urn token : String)
    (hnd : (Store.keys s).Nodup) :
    (cacheUrn env (cacheUrn env s urn token).1 urn token).1 =
      (cacheUrn env s urn token).1 := by
  cases hfe : env.filesEndpoint urn with
  | error e =>
    rw [cacheUrn_fst, cacheUrn_fst, hfe]
  | ok ds =>
    rw [cacheUrn_fst, cacheUrn_fst, hfe]
    exact putFetched_idem env token (cacheUrls urn ds) s hnd

/-- Witness for C9 at the empty store (whose key list is trivially
duplicate-free) and a concrete environment. -/
theorem cacheUrn_idempotent_witness :
    (cacheUrn wSwEnv (cacheUrn wSwEnv [] "URN1" "tok").1 "URN1" "tok").1 =
      (cacheUrn wSwEnv [] "URN1" "tok").1 :=
  cacheUrn_idempotent wSwEnv [] "URN1" "tok" (by decide)

/-! ## Manifest counting lemmas (for C3) -/

mutual
theorem parseNode_length (n : ManifestNode) (items : List Item)
    (h : parseNode n = some items) : items.length = countNode n := by
  cases n with
  | mk g mi u r cs =>
    rw [parseNode] at h
    rw [countNode]
    cases hrm : roleMatches r with
    | false =>
      rw [hrm] at h
      simp only [Bool.false_eq_true, if_false] at h
      cases hcs : parseNodes cs with
      | none => rw [hcs] at h; exact absurd h (by simp)
      | some rest =>
        rw [hcs] at h
        simp only [Option.some.injEq, List.nil_append] at h
        rw [← h]
        simp only [Bool.false_eq_true, if_false, Nat.zero_add]
        exact parseNodes_length cs rest hcs
    | true =>
      rw [hrm] at h
      simp only [if_true] at h
      cases hpi : getPathInfo u with
      | none => rw [hpi] at h; exact absurd h (by simp)
      | some p =>
        rw [hpi] at h
        simp only [Option.map_some'] at h
        cases hcs : parseNodes cs with
        | none => rw [hcs] at h; exact absurd h (by simp)
        | some rest =>
          rw [hcs] at h
          simp only [Option.some.injEq, List.singleton_append] at h
          rw [← h]
          simp only [if_true, List.length_cons]
          rw [parseNodes_length cs rest hcs]
          omega

theorem parseNodes_length (ns : List ManifestNode) (items : List Item)
    (h : parseNodes ns = some items) : items.length = countNodes ns := by
  cases ns with
  | nil =>
    rw [parseNodes] at h
    simp only [Option.some.injEq] at h
    rw [← h, countNodes]
    rfl
  | cons n ns =>
    rw [parseNodes] at h
    rw [countNodes]
    cases hn : parseNode n with
    | none => rw [hn] at h; exact absurd h (by simp)
    | some a =>
      rw [hn] at h
      cases hns : parseNodes ns with
      | none => rw [hns] at h; exact absurd h (by simp)
      | some b =>
        rw [hns] at h
        simp only [Option.some.injEq] at h
        rw [← h, List.length_append, parseNode_length n a hn, parseNodes_length ns b hns]
end

/-- C3: whenever the resolver returns a descriptor list, its length
equals the number of nodes at any depth whose role is in the fixed
10-role allow-list; and a node whose role is outside the allow-list
contributes no descriptor while its children are still traversed, so
matching descendants of a non-matching node still appear. -/
theorem parseManifest_count (m : Manifest) (items : List Item)
    (h : parseManifest m = some items) :
    items.length = countMatching m ∧
    (∀ g mi u r cs, roleMatches r = false →
      parseNode (ManifestNode.mk g mi u r cs) = parseNodes cs) := by
  constructor
  · have hlen := parseNode_length _ _ h
    rw [countNode] at hlen
    rw [hlen, countMatching]
    simp [roleMatches]
  · intro g mi u r cs hrm
    rw [parseNode, hrm]
    simp only [Bool.false_eq_true, if_false]
    cases hcs : parseNodes cs with
    | none => rfl
    | some rest => simp

/-- Witness for C3: the concrete manifest `wManifest` (one unlisted
top-level node with one allow-listed child) resolves to a list of
length `countMatching wManifest = 1`. -/
theorem parseManifest_count_witness :
    parseManifest wManifest = some
      [{ guid := "g1", mime := "application/autodesk-db", urn := "bucket/output/props.db"
         rootFileName := "props.db", localPath := "", basePath := "bucket/output/" }] ∧
    ([{ guid := "g1", mime := "application/autodesk-db", urn := "bucket/output/props.db"
        rootFileName := "props.db", localPath := "", basePath := "bucket/output/" }] :
        List Item).length = countMatching wManifest :=
  ⟨rfl, (parseManifest_count wManifest _ rfl).1⟩

end ApsDisconnected
